import Mathlib

/-!
Shallow embedding of `src/main.py` (class `BookScraper`): a bounded-concurrency
fetch-retry-persist pipeline over a paginated site.

Pure fragments of the Python code become Lean functions.  The asyncio run
becomes a small-step relation over a system state: one atomic step per region
between `await` suspension points that touches shared state (the semaphore
counter and the CSV file).  `save_data` contains no `await`, so one call to it
is a single atomic step under asyncio's cooperative single-threaded scheduler.
-/

/-- One extracted book record: the four optional fields produced by the
`page.evaluate` extraction inside `scrape_page` (a field is `null` when its
selector is missing). -/
structure Record where
  title : Option String
  price : Option String
  availability : Option String
  url : Option String
deriving DecidableEq

/-- `self.fieldnames = ['title', 'price', 'availability', 'url']`. -/
def fieldnames : List String := ["title", "price", "availability", "url"]

/-- Projection of a record onto the fixed CSV schema order used by
`csv.DictWriter(f, fieldnames=self.fieldnames)`. -/
def toRow (r : Record) : List (Option String) :=
  [r.title, r.price, r.availability, r.url]

/-- One physical row of the output file: the header row written by
`writer.writeheader()` or one data row written by `writer.writerows`. -/
inductive Row where
  | header (fields : List String)
  | data (fields : List (Option String))
deriving DecidableEq

/-- The data row that `csv.DictWriter.writerows` emits for one record. -/
def rowOf (r : Record) : Row := Row.data (toRow r)

/-- `BookScraper.__init__` opens the output file in truncate mode (`'w'`) and
writes exactly the header row. -/
def initFile : List Row := [Row.header fieldnames]

/-- The `writer.writerows(books)` call inside the `try` block of `save_data`:
appends one data row per record, in list order.  `writeOk = false` models the
`open`/write raising an `Exception`. -/
def writerows (file : List Row) (books : List Record) (writeOk : Bool) :
    Except Unit (List Row) :=
  if writeOk then .ok (file ++ books.map rowOf) else .error ()

/-- `BookScraper.save_data`: a no-op on an empty batch (`if not books:
return`), otherwise appends the rows; a write failure is caught by the
`except` clause, logged and absorbed, leaving the file with its previous
contents. -/
def save_data (file : List Row) (books : List Record) (writeOk : Bool) :
    List Row :=
  if books.isEmpty then file
  else
    match writerows file books writeOk with
    | .ok f => f
    | .error _ => file

/-- Outcome of one fetch attempt (`page.goto` plus `wait_for_selector` plus
`page.evaluate`) as observed by the retry loop in `scrape_page`:
`success books` means no exception, a non-404 response and `books` extracted;
`notFound` means `response.status == 404`;
`transient` means an `Exception` caught by the inner `except` clause
(navigation timeout, navigation error, missing `.product_pod` indicator);
`fatal` means a `BaseException` (for example task cancellation) which the
inner `except Exception` clause does not catch, so it escapes the loop. -/
inductive FetchOutcome where
  | success (books : List Record)
  | notFound
  | transient
  | fatal
deriving DecidableEq

/-- Mutable data of one worker while its retry loop runs: the shared file, the
number of attempts started, and the number of backoff sleeps performed. -/
structure LoopSt where
  file : List Row
  attempts : Nat
  sleeps : Nat
deriving DecidableEq

/-- The `for attempt in range(3)` retry loop of `scrape_page`.  `fetch a` gives
the outcome of attempt number `a` (0-based).  The result is `.ok (some books)`
for a `return` inside the loop (a 404 returns `[]`; a success calls
`save_data` synchronously and returns the extracted books), `.ok none` when
the loop falls through after exhausting its attempts, and `.error ()` when a
fatal exception escapes the inner handler.  A transient failure logs the error
and sleeps the fixed 2-second backoff (counted in `sleeps`) before the next
iteration. -/
def attemptLoop (fetch : Nat → FetchOutcome) (writeOk : Bool) :
    Nat → LoopSt → LoopSt × Except Unit (Option (List Record))
  | 0, st => (st, .ok none)
  | fuel + 1, st =>
    match fetch st.attempts with
    | .notFound => ({ st with attempts := st.attempts + 1 }, .ok (some []))
    | .success books =>
        ({ st with attempts := st.attempts + 1,
                   file := save_data st.file books writeOk }, .ok (some books))
    | .transient =>
        attemptLoop fetch writeOk fuel
          { st with attempts := st.attempts + 1, sleeps := st.sleeps + 1 }
    | .fatal => ({ st with attempts := st.attempts + 1 }, .error ())

/-- The `try ... finally: await page.close()` structure of `scrape_page`: the
close action runs whether the body returned normally or raised, and the
returned flag records that the per-page resource was released. -/
def tryFinallyClose {α : Type} (body : LoopSt → LoopSt × Except Unit α)
    (st : LoopSt) : LoopSt × Except Unit α × Bool :=
  ((body st).1, (body st).2, true)

/-- The hardcoded per-page URL built in `scrape_page`:
`f"http://books.toscrape.com/catalogue/page-{page_num}.html"`. -/
def scrape_url (page_num : Nat) : String :=
  "http://books.toscrape.com/catalogue/page-" ++ toString page_num ++ ".html"

/-- Observable result of one `scrape_page` call: its return value (or escaped
exception), the file contents afterwards, the number of attempts started, the
number of backoff sleeps, whether the per-page browsing page was closed, and
the URL it targeted. -/
structure PageRun where
  res : Except Unit (List Record)
  file : List Row
  attempts : Nat
  sleeps : Nat
  pageClosed : Bool
  url : String

/-- `BookScraper.scrape_page` for a single worker, with the fetch collaborator
abstracted into the per-attempt outcome function `fetch` and the writability
of the output into `writeOk`.  When the loop falls through, the code logs a
terminal failure and returns `[]`; the `finally` closes the page on every
path.  `loopResToPage` maps the loop result to the value of the call: an
in-loop `return x` yields `x`, falling through yields the final `return []`,
and a fatal exception propagates. -/
def loopResToPage : Except Unit (Option (List Record)) →
    Except Unit (List Record)
  | .ok (some books) => .ok books
  | .ok none => .ok []
  | .error e => .error e

def scrape_page (fetch : Nat → FetchOutcome) (writeOk : Bool) (file : List Row)
    (page_num : Nat) : PageRun :=
  let p := tryFinallyClose (fun st =>
    let r := attemptLoop fetch writeOk 3 st
    (r.1, loopResToPage r.2)) ⟨file, 0, 0⟩
  ⟨p.2.1, p.1.file, p.1.attempts, p.1.sleeps, p.2.2, scrape_url page_num⟩

/-- The literal characters of the piece `Page ` of the regex
`Page \d+ of (\d+)` used by `get_total_pages`. -/
def pageTok : List Char := ['P', 'a', 'g', 'e', ' ']

/-- The literal characters of the regex piece ` of `. -/
def ofTok : List Char := [' ', 'o', 'f', ' ']

/-- Bool test that `p` is an initial segment of `s`. -/
def leadsWith : List Char → List Char → Bool
  | [], _ => true
  | _ :: _, [] => false
  | p :: ps, c :: cs => p = c && leadsWith ps cs

/-- `int(...)` applied to a run of decimal digit characters. -/
def natOfDigits (ds : List Char) : Nat :=
  ds.foldl (fun a c => a * 10 + (c.toNat - 48)) 0

/-- Match of `Page \d+ of (\d+)` anchored at the start of `s`, returning the
parsed capture group.  For this pattern the greedy `\d+` never backtracks
usefully (the next required character ` ` is not a digit), so taking maximal
digit runs is faithful to the regex semantics. -/
def matchAt (s : List Char) : Option Nat :=
  if leadsWith pageTok s then
    let r1 := s.drop pageTok.length
    let d1 := r1.takeWhile Char.isDigit
    let r2 := r1.drop d1.length
    if d1.isEmpty then none
    else if leadsWith ofTok r2 then
      let d2 := (r2.drop ofTok.length).takeWhile Char.isDigit
      if d2.isEmpty then none else some (natOfDigits d2)
    else none
  else none

/-- `re.search`: try the pattern at each position from the left, returning the
leftmost match. -/
def reSearch : List Char → Option Nat
  | [] => none
  | c :: cs =>
    match matchAt (c :: cs) with
    | some n => some n
    | none => reSearch cs

/-- `BookScraper.get_total_pages`.  `fetched` is the outcome of the bootstrap
navigation plus indicator wait: `.error ()` when any of `page.goto`,
`wait_for_selector` or `inner_text` raises (all caught by the handler, which
logs a warning), and `.ok text` with the `.current` element text otherwise.
Text that the pattern does not match falls through to the fallback
`return 50`. -/
def get_total_pages (fetched : Except Unit String) : Nat :=
  match fetched with
  | .error _ => 50
  | .ok text =>
    match reSearch text.toList with
    | some n => n
    | none => 50

/-- The pattern `Page \d+ of (\d+)` occurs somewhere inside `t`. -/
def Decomp (t : List Char) : Prop :=
  ∃ pre d1 d2 rest,
    t = pre ++ (pageTok ++ (d1 ++ (ofTok ++ (d2 ++ rest))))
    ∧ d1 ≠ [] ∧ d2 ≠ []
    ∧ (∀ c ∈ d1, c.isDigit = true) ∧ (∀ c ∈ d2, c.isDigit = true)

/-- `BookScraper.run` performs pagination discovery by fetching `base_url`;
`env` maps a URL to the bootstrap fetch outcome the environment produces for
it. -/
def run_total_pages (env : String → Except Unit String) (base_url : String) :
    Nat :=
  get_total_pages (env base_url)

/-- The per-page URLs attempted by the workers spawned in `BookScraper.run`:
one `scrape_page(context, i)` task for `i in range(1, total_pages + 1)`. -/
def run_urls (env : String → Except Unit String) (base_url : String) :
    List String :=
  (List.range (run_total_pages env base_url)).map (fun i => scrape_url (i + 1))

/-- Static data of one concurrent run: the number of spawned workers (pages),
the semaphore capacity `max_concurrent` (default 5), the per-worker
per-attempt fetch outcome, and the per-worker write success. -/
structure Config where
  n : Nat
  k : Nat
  beh : Nat → Nat → FetchOutcome
  writeOk : Nat → Bool

/-- `max_concurrent` defaults to 5 in `BookScraper.__init__`. -/
def defaultMaxConcurrent : Nat := 5

/-- Scheduling position of one worker task, split at `await` suspension
points: `waiting` means blocked at the semaphore `async with` entry;
`running a` means holding a permit and about to start attempt `a` (page
creation and the per-attempt awaits touch only worker-private state, so they
are folded into the attempt step); `closing r` means holding a permit, at
`await page.close()` inside the `finally`; `done r` means finished with the
permit released by the `async with` exit. -/
inductive Phase where
  | waiting
  | running (attempts : Nat)
  | closing (res : Except Unit (List Record))
  | done (res : Except Unit (List Record))

/-- Point update of the task map. -/
def updT (tasks : Nat → Phase) (w : Nat) (p : Phase) : Nat → Phase :=
  fun x => if x = w then p else tasks x

/-- Shared state of a run: free semaphore permits, the phase of every worker,
and the output file contents. -/
structure SysState where
  avail : Nat
  tasks : Nat → Phase
  file : List Row

/-- One atomic step of the cooperative scheduler.  Only the semaphore counter
and (in `fetchSuccess`, via the synchronous `save_data`) the file touch shared
state; every constructor acts on one worker `w < cfg.n`. -/
inductive Step (cfg : Config) : SysState → SysState → Prop where
  | acquire (s : SysState) (w : Nat) (hw : w < cfg.n)
      (hph : s.tasks w = .waiting) (hav : 0 < s.avail) :
      Step cfg s ⟨s.avail - 1, updT s.tasks w (.running 0), s.file⟩
  | fetchSuccess (s : SysState) (w a : Nat) (books : List Record)
      (hw : w < cfg.n) (hph : s.tasks w = .running a) (ha : a < 3)
      (hbeh : cfg.beh w a = .success books) :
      Step cfg s ⟨s.avail, updT s.tasks w (.closing (.ok books)),
        save_data s.file books (cfg.writeOk w)⟩
  | fetchNotFound (s : SysState) (w a : Nat) (hw : w < cfg.n)
      (hph : s.tasks w = .running a) (ha : a < 3)
      (hbeh : cfg.beh w a = .notFound) :
      Step cfg s ⟨s.avail, updT s.tasks w (.closing (.ok [])), s.file⟩
  | fetchTransient (s : SysState) (w a : Nat) (hw : w < cfg.n)
      (hph : s.tasks w = .running a) (ha : a < 3)
      (hbeh : cfg.beh w a = .transient) :
      Step cfg s ⟨s.avail, updT s.tasks w (.running (a + 1)), s.file⟩
  | fetchFatal (s : SysState) (w a : Nat) (hw : w < cfg.n)
      (hph : s.tasks w = .running a) (ha : a < 3)
      (hbeh : cfg.beh w a = .fatal) :
      Step cfg s ⟨s.avail, updT s.tasks w (.closing (.error ())), s.file⟩
  | exhaust (s : SysState) (w : Nat) (hw : w < cfg.n)
      (hph : s.tasks w = .running 3) :
      Step cfg s ⟨s.avail, updT s.tasks w (.closing (.ok [])), s.file⟩
  | close (s : SysState) (w : Nat) (r : Except Unit (List Record))
      (hw : w < cfg.n) (hph : s.tasks w = .closing r) :
      Step cfg s ⟨s.avail + 1, updT s.tasks w (.done r), s.file⟩

/-- Before the workers start: all permits free, every task waiting, and the
file holding exactly the header written by `__init__`. -/
def initState (cfg : Config) : SysState := ⟨cfg.k, fun _ => .waiting, initFile⟩

/-- States reachable by some interleaving of the worker tasks. -/
def Reach (cfg : Config) (s : SysState) : Prop :=
  Relation.ReflTransGen (Step cfg) (initState cfg) s

/-- A worker holds a semaphore permit exactly in the `running` and `closing`
phases. -/
def isActive : Phase → Bool
  | .running _ => true
  | .closing _ => true
  | _ => false

def aCnt (p : Phase) : Nat := if isActive p then 1 else 0

/-- Number of workers concurrently holding a permit. -/
def activeCount (cfg : Config) (s : SysState) : Nat :=
  ∑ x ∈ Finset.range cfg.n, aCnt (s.tasks x)

/-- Rows that worker `w`'s finished loop contributed to the file, read off
from its result. -/
def resContrib (cfg : Config) (w : Nat) :
    Except Unit (List Record) → Multiset Row
  | .ok books =>
      if cfg.writeOk w then ((books.map rowOf : List Row) : Multiset Row)
      else 0
  | .error _ => 0

/-- Rows contributed so far by a worker in the given phase. -/
def contrib (cfg : Config) (w : Nat) : Phase → Multiset Row
  | .closing r => resContrib cfg w r
  | .done r => resContrib cfg w r
  | _ => 0

def saveSum (cfg : Config) (s : SysState) : Multiset Row :=
  ∑ x ∈ Finset.range cfg.n, contrib cfg x (s.tasks x)

/-- Every row of `ds` is the schema projection of some record. -/
def DataRowsOk (ds : List Row) : Prop := ∀ r ∈ ds, ∃ rec, r = rowOf rec

/-- Consistency of a finished loop result with the worker's fetch behaviour:
the first `j` attempts failed transiently and attempt `j` (if any remained)
decided the result. -/
def ResInv (beh : Nat → FetchOutcome) (r : Except Unit (List Record)) : Prop :=
  ∃ j, j ≤ 3 ∧ (∀ i, i < j → beh i = .transient) ∧
    ((j = 3 ∧ r = .ok []) ∨
     (j < 3 ∧ (beh j = .notFound ∧ r = .ok []
       ∨ (∃ books, beh j = .success books ∧ r = .ok books)
       ∨ (beh j = .fatal ∧ r = .error ()))))

/-- Consistency of one worker's phase with its fetch behaviour. -/
def PhaseInv (beh : Nat → FetchOutcome) : Phase → Prop
  | .waiting => True
  | .running a => a ≤ 3 ∧ ∀ i, i < a → beh i = .transient
  | .closing r => ResInv beh r
  | .done r => ResInv beh r

/-- Inductive invariant of the run: permit accounting, file shape (header
first, then exactly the rows contributed by the workers so far), and
per-worker phase consistency. -/
def SysInv (cfg : Config) (s : SysState) : Prop :=
  s.avail + activeCount cfg s = cfg.k
  ∧ (∃ ds, s.file = Row.header fieldnames :: ds ∧ DataRowsOk ds
      ∧ (ds : Multiset Row) = saveSum cfg s)
  ∧ (∀ w, w < cfg.n → PhaseInv (cfg.beh w) (s.tasks w))

/-- A sample record for concrete witnesses. -/
def rec0 : Record := ⟨some ("A"), some ("1"), some ("In stock"), some ("u")⟩

/-- A sample one-worker configuration (capacity is the default 5, the single
page succeeds on its first attempt with one record, writes succeed). -/
def cfg0 : Config :=
  ⟨1, defaultMaxConcurrent, fun _ _ => .success [rec0], fun _ => true⟩

/-! ### Behaviour of the retry loop -/

lemma attemptLoop_success (fetch : Nat → FetchOutcome) (writeOk : Bool)
    (books : List Record) :
    ∀ (m fuel : Nat) (st : LoopSt), m < fuel →
      (∀ i, i < m → fetch (st.attempts + i) = .transient) →
      fetch (st.attempts + m) = .success books →
      attemptLoop fetch writeOk fuel st =
        (⟨save_data st.file books writeOk, st.attempts + m + 1, st.sleeps + m⟩,
          .ok (some books)) := by
  intro m
  induction m with
  | zero =>
    intro fuel st hm htr hs
    cases fuel with
    | zero => omega
    | succ f =>
      rw [show st.attempts + 0 = st.attempts from rfl] at hs
      simp [attemptLoop, hs]
  | succ m ih =>
    intro fuel st hm htr hs
    cases fuel with
    | zero => omega
    | succ f =>
      have h0 : fetch st.attempts = .transient := by
        simpa using htr 0 (Nat.succ_pos m)
      simp only [attemptLoop, h0]
      rw [ih f { st with attempts := st.attempts + 1, sleeps := st.sleeps + 1 }
        (by omega)
        (fun i hi => by
          have h := htr (i + 1) (by omega)
          have ha : st.attempts + (i + 1) = st.attempts + 1 + i := by omega
          rw [ha] at h
          simpa using h)
        (by
          have ha : st.attempts + (m + 1) = st.attempts + 1 + m := by omega
          rw [ha] at hs
          simpa using hs)]
      simp only [Prod.mk.injEq, LoopSt.mk.injEq]
      refine ⟨⟨trivial, ?_, ?_⟩, trivial⟩ <;> omega

lemma attemptLoop_allTrans (fetch : Nat → FetchOutcome) (writeOk : Bool) :
    ∀ (fuel : Nat) (st : LoopSt),
      (∀ i, i < fuel → fetch (st.attempts + i) = .transient) →
      attemptLoop fetch writeOk fuel st =
        (⟨st.file, st.attempts + fuel, st.sleeps + fuel⟩, .ok none) := by
  intro fuel
  induction fuel with
  | zero => intro st htr; simp [attemptLoop]
  | succ f ih =>
    intro st htr
    have h0 : fetch st.attempts = .transient := by
      simpa using htr 0 (Nat.succ_pos f)
    simp only [attemptLoop, h0]
    rw [ih { st with attempts := st.attempts + 1, sleeps := st.sleeps + 1 }
      (fun i hi => by
        have h := htr (i + 1) (by omega)
        have ha : st.attempts + (i + 1) = st.attempts + 1 + i := by omega
        rw [ha] at h
        simpa using h)]
    simp only [Prod.mk.injEq, LoopSt.mk.injEq]
    refine ⟨⟨trivial, ?_, ?_⟩, trivial⟩ <;> omega

lemma attemptLoop_notFound_first (fetch : Nat → FetchOutcome) (writeOk : Bool)
    (fuel : Nat) (st : LoopSt) (hfuel : 0 < fuel)
    (h : fetch st.attempts = .notFound) :
    attemptLoop fetch writeOk fuel st =
      (⟨st.file, st.attempts + 1, st.sleeps⟩, .ok (some [])) := by
  cases fuel with
  | zero => omega
  | succ f => simp [attemptLoop, h]

lemma attemptLoop_no_fatal (fetch : Nat → FetchOutcome) (writeOk : Bool)
    (hf : ∀ i, fetch i ≠ .fatal) :
    ∀ (fuel : Nat) (st : LoopSt),
      ∃ o, (attemptLoop fetch writeOk fuel st).2 = .ok o := by
  intro fuel
  induction fuel with
  | zero => intro st; exact ⟨none, rfl⟩
  | succ f ih =>
    intro st
    cases h : fetch st.attempts with
    | success books => exact ⟨some books, by simp [attemptLoop, h]⟩
    | notFound => exact ⟨some [], by simp [attemptLoop, h]⟩
    | transient => simpa [attemptLoop, h] using ih _
    | fatal => exact absurd h (hf st.attempts)

lemma scrape_page_eq (fetch : Nat → FetchOutcome) (writeOk : Bool)
    (file : List Row) (pn : Nat) (st : LoopSt)
    (r : Except Unit (Option (List Record)))
    (h : attemptLoop fetch writeOk 3 ⟨file, 0, 0⟩ = (st, r)) :
    scrape_page fetch writeOk file pn =
      ⟨loopResToPage r, st.file, st.attempts, st.sleeps, true,
        scrape_url pn⟩ := by
  simp only [scrape_page, tryFinallyClose]
  rw [h]

/-- Claim C2: with exactly `m < 3` transient failures followed by a success,
the retry loop of `scrape_page` performs exactly `m + 1` attempts, appends the
page's extracted records to the output, and returns them; with transient
failures on all 3 attempts it performs exactly 3 attempts, appends nothing,
and returns an empty list. -/
theorem retry_attempt_counts (fetch fetchBad : Nat → FetchOutcome)
    (books : List Record) (file : List Row) (pn m : Nat) (hm : m < 3)
    (htr : ∀ i, i < m → fetch i = .transient)
    (hs : fetch m = .success books)
    (hbad : ∀ i, i < 3 → fetchBad i = .transient) :
    (scrape_page fetch true file pn).attempts = m + 1
    ∧ (scrape_page fetch true file pn).res = .ok books
    ∧ (scrape_page fetch true file pn).file = file ++ books.map rowOf
    ∧ (scrape_page fetchBad true file pn).attempts = 3
    ∧ (scrape_page fetchBad true file pn).res = .ok []
    ∧ (scrape_page fetchBad true file pn).file = file := by
  have h1 := attemptLoop_success fetch true books m 3 ⟨file, 0, 0⟩ hm
    (fun i hi => by simpa using htr i hi) (by simpa using hs)
  have h2 := attemptLoop_allTrans fetchBad true 3 ⟨file, 0, 0⟩
    (fun i hi => by simpa using hbad i hi)
  rw [scrape_page_eq fetch true file pn _ _ h1,
      scrape_page_eq fetchBad true file pn _ _ h2]
  refine ⟨by show 0 + m + 1 = m + 1; omega, rfl, ?_, rfl, rfl, rfl⟩
  by_cases hb : books.isEmpty
  · have : books = [] := List.isEmpty_iff.mp hb
    simp [save_data, hb, this]
  · simp [save_data, writerows, hb]

theorem retry_attempt_counts_witness :
    (scrape_page (fun i => if i = 0 then .transient else .success [rec0])
      true [] 1).attempts = 2 :=
  (retry_attempt_counts (fun i => if i = 0 then .transient else .success [rec0])
    (fun _ => .transient) [rec0] [] 1 1 (by decide)
    (by decide) (by decide) (fun i _ => rfl)).1

/-- Claim C5: a 404 response on the first fetch attempt makes `scrape_page`
return an empty list immediately after that single attempt: one attempt, no
backoff sleep, nothing appended to the output. -/
theorem not_found_short_circuit (fetch : Nat → FetchOutcome) (writeOk : Bool)
    (file : List Row) (pn : Nat) (h : fetch 0 = .notFound) :
    (scrape_page fetch writeOk file pn).res = .ok []
    ∧ (scrape_page fetch writeOk file pn).attempts = 1
    ∧ (scrape_page fetch writeOk file pn).sleeps = 0
    ∧ (scrape_page fetch writeOk file pn).file = file := by
  have h1 := attemptLoop_notFound_first fetch writeOk 3 ⟨file, 0, 0⟩
    (by omega) (by simpa using h)
  rw [scrape_page_eq fetch writeOk file pn _ _ h1]
  exact ⟨rfl, rfl, rfl, rfl⟩

theorem not_found_short_circuit_witness :
    (scrape_page (fun _ => .notFound) true [] 1).attempts = 1 :=
  (not_found_short_circuit (fun _ => .notFound) true [] 1 rfl).2.1

/-- Claim C6: under every fetch behaviour whose failures are among the modes
the inner handler catches (navigation timeout or error, missing content
indicator, 404, write failure, retry exhaustion — no cancellation-style
fatal exception), `scrape_page` propagates no exception: it returns a normal,
possibly empty, record list. -/
theorem scrape_page_never_raises (fetch : Nat → FetchOutcome) (writeOk : Bool)
    (file : List Row) (pn : Nat) (hf : ∀ i, fetch i ≠ .fatal) :
    ∃ books, (scrape_page fetch writeOk file pn).res = .ok books := by
  obtain ⟨o, ho⟩ := attemptLoop_no_fatal fetch writeOk hf 3 ⟨file, 0, 0⟩
  rcases h : attemptLoop fetch writeOk 3 ⟨file, 0, 0⟩ with ⟨st, r⟩
  rw [h] at ho
  rw [scrape_page_eq fetch writeOk file pn st r h]
  have hr : r = .ok o := ho
  subst hr
  cases o with
  | none => exact ⟨[], rfl⟩
  | some books => exact ⟨books, rfl⟩

theorem scrape_page_never_raises_witness :
    ∃ books, (scrape_page (fun _ => .transient) false [] 1).res = .ok books :=
  scrape_page_never_raises (fun _ => .transient) false [] 1
    (fun _ h => FetchOutcome.noConfusion h)

/-- Claim C8: a failing append is absorbed by `save_data` — logged, no raise,
no retry, file unchanged (the page's data is lost) — and the worker that
called it still returns its records normally after its `m + 1` attempts. -/
theorem save_failure_absorbed (fetch : Nat → FetchOutcome)
    (books : List Record) (file : List Row) (pn m : Nat) (hm : m < 3)
    (htr : ∀ i, i < m → fetch i = .transient)
    (hs : fetch m = .success books) :
    save_data file books false = file
    ∧ (scrape_page fetch false file pn).res = .ok books
    ∧ (scrape_page fetch false file pn).file = file
    ∧ (scrape_page fetch false file pn).attempts = m + 1 := by
  have h1 := attemptLoop_success fetch false books m 3 ⟨file, 0, 0⟩ hm
    (fun i hi => by simpa using htr i hi) (by simpa using hs)
  rw [scrape_page_eq fetch false file pn _ _ h1]
  have hsd : save_data file books false = file := by
    by_cases hb : books.isEmpty <;> simp [save_data, writerows, hb]
  exact ⟨hsd, rfl, hsd, by show 0 + m + 1 = m + 1; omega⟩

theorem save_failure_absorbed_witness :
    (scrape_page (fun _ => .success [rec0]) false [] 1).res = .ok [rec0] :=
  (save_failure_absorbed (fun _ => .success [rec0]) [rec0] [] 1 0 (by decide)
    (fun i hi => absurd hi (by omega)) rfl).2.1

/-- Claim C9: on every execution path of `scrape_page` — success, 404,
exhausted retries, or an exception escaping the retry loop — the per-page
browsing page is closed before the call returns, via the unconditional
`finally` block. -/
theorem page_closed_on_all_paths (fetch : Nat → FetchOutcome) (writeOk : Bool)
    (file : List Row) (pn : Nat) :
    (scrape_page fetch writeOk file pn).pageClosed = true := by
  rcases h : attemptLoop fetch writeOk 3 ⟨file, 0, 0⟩ with ⟨st, r⟩
  rw [scrape_page_eq fetch writeOk file pn st r h]

/-! ### Behaviour of the pagination pattern matcher -/

lemma leadsWith_append (p t : List Char) : leadsWith p (p ++ t) = true := by
  induction p with
  | nil => rfl
  | cons c cs ih => simp [leadsWith, ih]

lemma leadsWith_ex {p s : List Char} (h : leadsWith p s = true) :
    ∃ t, s = p ++ t := by
  induction p generalizing s with
  | nil => exact ⟨s, rfl⟩
  | cons c cs ih =>
    cases s with
    | nil => simp [leadsWith] at h
    | cons b bs =>
      simp only [leadsWith, Bool.and_eq_true, decide_eq_true_eq] at h
      obtain ⟨rfl, h2⟩ := h
      obtain ⟨t, rfl⟩ := ih h2
      exact ⟨t, rfl⟩

lemma takeWhile_all_append (p : Char → Bool) (l1 l2 : List Char)
    (h1 : ∀ c ∈ l1, p c = true)
    (h2 : ∀ c, l2.head? = some c → p c = false) :
    (l1 ++ l2).takeWhile p = l1 := by
  induction l1 with
  | nil =>
    cases l2 with
    | nil => rfl
    | cons b bs =>
      have hb : ¬ p b = true := by simp [h2 b rfl]
      rw [List.nil_append, List.takeWhile_cons_of_neg hb]
  | cons c cs ih =>
    have hc : p c = true := h1 c (by simp)
    rw [List.cons_append, List.takeWhile_cons_of_pos hc,
      ih (fun x hx => h1 x (by simp [hx]))]

lemma mem_takeWhile_digit (p : Char → Bool) :
    ∀ (l : List Char) (c : Char), c ∈ l.takeWhile p → p c = true := by
  intro l
  induction l with
  | nil => intro c hc; simp [List.takeWhile] at hc
  | cons b bs ih =>
    intro c hc
    by_cases hb : p b = true
    · rw [List.takeWhile_cons_of_pos hb] at hc
      rcases List.mem_cons.mp hc with rfl | hmem
      · exact hb
      · exact ih c hmem
    · rw [List.takeWhile_cons_of_neg (by simpa using hb)] at hc
      simp at hc

lemma drop_takeWhile_len (p : Char → Bool) (l : List Char) :
    l.drop (l.takeWhile p).length = l.dropWhile p := by
  have h := List.takeWhile_append_dropWhile (p := p) (l := l)
  calc l.drop (l.takeWhile p).length
      = (l.takeWhile p ++ l.dropWhile p).drop (l.takeWhile p).length := by
        rw [h]
    _ = l.dropWhile p := List.drop_left _ _

lemma matchAt_pattern_gen (d1 tail2 : List Char) (h1 : d1 ≠ [])
    (hd1 : ∀ c ∈ d1, c.isDigit = true) :
    matchAt (pageTok ++ (d1 ++ (ofTok ++ tail2))) =
      (if (tail2.takeWhile Char.isDigit).isEmpty then none
       else some (natOfDigits (tail2.takeWhile Char.isDigit))) := by
  have hl1 : leadsWith pageTok (pageTok ++ (d1 ++ (ofTok ++ tail2))) = true :=
    leadsWith_append _ _
  have e1 : (pageTok ++ (d1 ++ (ofTok ++ tail2))).drop pageTok.length
      = d1 ++ (ofTok ++ tail2) := List.drop_left _ _
  have e2 : (d1 ++ (ofTok ++ tail2)).takeWhile Char.isDigit = d1 :=
    takeWhile_all_append _ _ _ hd1 (fun c hc => by
      rw [show (ofTok ++ tail2).head? = some (' ') from rfl] at hc
      injection hc with hc'
      subst hc'
      decide)
  have e3 : (d1 ++ (ofTok ++ tail2)).drop d1.length = ofTok ++ tail2 :=
    List.drop_left _ _
  have e4 : leadsWith ofTok (ofTok ++ tail2) = true := leadsWith_append _ _
  have e5 : (ofTok ++ tail2).drop ofTok.length = tail2 := List.drop_left _ _
  have hne1 : d1.isEmpty = false := by
    cases d1 with
    | nil => exact absurd rfl h1
    | cons a b => rfl
  simp only [matchAt, hl1, e1, e2, e3, e4, e5, hne1, if_true,
    Bool.false_eq_true, if_false]

lemma matchAt_pattern (d1 d2 rest : List Char) (h1 : d1 ≠ []) (h2 : d2 ≠ [])
    (hd1 : ∀ c ∈ d1, c.isDigit = true) (hd2 : ∀ c ∈ d2, c.isDigit = true)
    (hrest : ∀ c, rest.head? = some c → c.isDigit = false) :
    matchAt (pageTok ++ (d1 ++ (ofTok ++ (d2 ++ rest)))) =
      some (natOfDigits d2) := by
  rw [matchAt_pattern_gen d1 (d2 ++ rest) h1 hd1,
    takeWhile_all_append _ _ _ hd2 hrest]
  have hne2 : d2.isEmpty = false := by
    cases d2 with
    | nil => exact absurd rfl h2
    | cons a b => rfl
  simp [hne2]

lemma matchAt_pattern_ex (d1 d2 rest : List Char) (h1 : d1 ≠ [])
    (h2 : d2 ≠ [])
    (hd1 : ∀ c ∈ d1, c.isDigit = true) (hd2 : ∀ c ∈ d2, c.isDigit = true) :
    ∃ n, matchAt (pageTok ++ (d1 ++ (ofTok ++ (d2 ++ rest)))) = some n := by
  rw [matchAt_pattern_gen d1 (d2 ++ rest) h1 hd1]
  cases d2 with
  | nil => exact absurd rfl h2
  | cons c cs =>
    have hc : Char.isDigit c = true := hd2 c (by simp)
    rw [List.cons_append, List.takeWhile_cons_of_pos hc]
    exact ⟨_, rfl⟩

lemma matchAt_prefixed (t : List Char) :
    matchAt (pageTok ++ t) =
      (if (t.takeWhile Char.isDigit).isEmpty then none
       else if leadsWith ofTok (t.dropWhile Char.isDigit) then
         (if (((t.dropWhile Char.isDigit).drop
                ofTok.length).takeWhile Char.isDigit).isEmpty then none
          else some (natOfDigits (((t.dropWhile Char.isDigit).drop
                ofTok.length).takeWhile Char.isDigit)))
       else none) := by
  have hl1 : leadsWith pageTok (pageTok ++ t) = true := leadsWith_append _ _
  simp only [matchAt, hl1, if_true, List.drop_left, drop_takeWhile_len]

lemma matchAt_decomp {s : List Char} {n : Nat} (h : matchAt s = some n) :
    ∃ d1 d2 rest, s = pageTok ++ (d1 ++ (ofTok ++ (d2 ++ rest)))
      ∧ d1 ≠ [] ∧ d2 ≠ []
      ∧ (∀ c ∈ d1, c.isDigit = true) ∧ (∀ c ∈ d2, c.isDigit = true) := by
  by_cases hA : leadsWith pageTok s = true
  · obtain ⟨t, rfl⟩ := leadsWith_ex hA
    rw [matchAt_prefixed] at h
    by_cases hB : (t.takeWhile Char.isDigit).isEmpty = true
    · rw [if_pos hB] at h
      exact Option.noConfusion h
    rw [if_neg hB] at h
    by_cases hC : leadsWith ofTok (t.dropWhile Char.isDigit) = true
    · rw [if_pos hC] at h
      obtain ⟨u, hu⟩ := leadsWith_ex hC
      have hdrop : (t.dropWhile Char.isDigit).drop ofTok.length = u := by
        rw [hu, List.drop_left]
      rw [hdrop] at h
      by_cases hD : (u.takeWhile Char.isDigit).isEmpty = true
      · rw [if_pos hD] at h
        exact Option.noConfusion h
      rw [if_neg hD] at h
      refine ⟨t.takeWhile Char.isDigit, u.takeWhile Char.isDigit,
        u.dropWhile Char.isDigit, ?_, ?_, ?_, ?_, ?_⟩
      · rw [List.takeWhile_append_dropWhile, ← hu,
          List.takeWhile_append_dropWhile]
      · intro hnil
        exact hB (by rw [hnil]; rfl)
      · intro hnil
        exact hD (by rw [hnil]; rfl)
      · exact fun c hc => mem_takeWhile_digit Char.isDigit t c hc
      · exact fun c hc => mem_takeWhile_digit Char.isDigit u c hc
    · rw [if_neg hC] at h
      exact Option.noConfusion h
  · exfalso
    simp only [matchAt] at h
    rw [if_neg hA] at h
    exact Option.noConfusion h

lemma reSearch_cons_some {c : Char} {cs : List Char} {n : Nat}
    (h : matchAt (c :: cs) = some n) : reSearch (c :: cs) = some n := by
  simp [reSearch, h]

lemma reSearch_cons_none {c : Char} {cs : List Char}
    (h : matchAt (c :: cs) = none) : reSearch (c :: cs) = reSearch cs := by
  simp [reSearch, h]

lemma reSearch_finds_suffix (s : List Char) (n : Nat) (hs : matchAt s = some n)
    (hne : s ≠ []) : ∀ pre : List Char, ∃ m, reSearch (pre ++ s) = some m := by
  intro pre
  induction pre with
  | nil =>
    cases s with
    | nil => exact absurd rfl hne
    | cons c cs => exact ⟨n, by simpa using reSearch_cons_some hs⟩
  | cons p ps ih =>
    rw [List.cons_append]
    cases hm : matchAt (p :: (ps ++ s)) with
    | some k => exact ⟨k, reSearch_cons_some hm⟩
    | none =>
      obtain ⟨m, hm2⟩ := ih
      exact ⟨m, by rw [reSearch_cons_none hm]; exact hm2⟩

lemma reSearch_none_noDecomp {t : List Char} (h : reSearch t = none) :
    ¬ Decomp t := by
  rintro ⟨pre, d1, d2, rest, rfl, h1, h2, hd1, hd2⟩
  obtain ⟨n, hm⟩ := matchAt_pattern_ex d1 d2 rest h1 h2 hd1 hd2
  obtain ⟨m, hr⟩ := reSearch_finds_suffix _ n hm (by simp [pageTok]) pre
  rw [h] at hr
  exact Option.noConfusion hr

lemma reSearch_pattern (d1 d2 rest : List Char) (h1 : d1 ≠ []) (h2 : d2 ≠ [])
    (hd1 : ∀ c ∈ d1, c.isDigit = true) (hd2 : ∀ c ∈ d2, c.isDigit = true)
    (hrest : ∀ c, rest.head? = some c → c.isDigit = false) :
    reSearch (pageTok ++ (d1 ++ (ofTok ++ (d2 ++ rest)))) =
      some (natOfDigits d2) :=
  reSearch_cons_some (matchAt_pattern d1 d2 rest h1 h2 hd1 hd2 hrest)

/-- Claim C7: `get_total_pages` returns the parsed TOTAL whenever the
indicator text matches `Page \d+ of (\d+)`, and returns the fixed fallback 50
on every failure — a raising bootstrap navigation or wait, or indicator text
the pattern does not occur in — never propagating an error to its caller. -/
theorem total_pages_parse_or_fallback (tbad : List Char)
    (hbad : reSearch tbad = none)
    (d1 d2 rest : List Char) (h1 : d1 ≠ []) (h2 : d2 ≠ [])
    (hd1 : ∀ c ∈ d1, c.isDigit = true) (hd2 : ∀ c ∈ d2, c.isDigit = true)
    (hrest : ∀ c, rest.head? = some c → c.isDigit = false) :
    get_total_pages (.error ()) = 50
    ∧ get_total_pages (.ok (String.mk tbad)) = 50
    ∧ ¬ Decomp tbad
    ∧ get_total_pages
        (.ok (String.mk (pageTok ++ (d1 ++ (ofTok ++ (d2 ++ rest))))))
        = natOfDigits d2 := by
  refine ⟨rfl, ?_, reSearch_none_noDecomp hbad, ?_⟩
  · simp [get_total_pages, String.toList, hbad]
  · have hr := reSearch_pattern d1 d2 rest h1 h2 hd1 hd2 hrest
    simp [get_total_pages, String.toList, hr]

theorem total_pages_parse_or_fallback_witness :
    get_total_pages (.ok ("Page 3 of 27")) = 27 := by
  have h := (total_pages_parse_or_fallback (String.toList ("hello"))
    (by decide) (['3']) (['2', '7']) [] (by decide) (by decide)
    (by decide) (by decide) (by intro c hc; simp at hc)).2.2.2
  have e1 : String.mk (pageTok ++ ((['3']) ++ (ofTok ++ ((['2', '7']) ++ []))))
      = ("Page 3 of 27") := by decide
  have e2 : natOfDigits (['2', '7']) = 27 := by decide
  rw [e1, e2] at h
  exact h

/-! ### The per-page URL and the influence of base_url -/

/-- Claim C10, counterexample: two runs against the same environment that
differ only in `base_url` can attempt different page URL sets, because the
discovered total differs (here 1 page versus 2 pages). -/
theorem url_set_depends_on_base_url_cex :
    scrape_url 2 ∈ run_urls (fun u => if u = ("a" : String)
        then Except.ok ("Page 1 of 1") else Except.ok ("Page 1 of 2")) ("b")
    ∧ scrape_url 2 ∉ run_urls (fun u => if u = ("a" : String)
        then Except.ok ("Page 1 of 1") else Except.ok ("Page 1 of 2"))
        ("a") := by
  constructor <;> decide

/-- Claim C10 (amended): the per-page URL is the hardcoded
`http://books.toscrape.com/catalogue/page-{page_num}.html`, a function of the
page number only; `base_url` enters only through pagination discovery, so two
runs differing only in `base_url` whose discovery yields the same total
attempt exactly the same page URLs. -/
theorem page_urls_fixed_given_same_total
    (env : String → Except Unit String) (b1 b2 : String)
    (h : run_total_pages env b1 = run_total_pages env b2) :
    (∀ p, scrape_url p =
      ("http://books.toscrape.com/catalogue/page-" ++ toString p ++ ".html"))
    ∧ run_urls env b1 = run_urls env b2 := by
  refine ⟨fun p => rfl, ?_⟩
  simp only [run_urls, h]

theorem page_urls_fixed_given_same_total_witness :
    run_urls (fun _ => Except.ok ("Page 1 of 2")) ("a")
      = run_urls (fun _ => Except.ok ("Page 1 of 2")) ("b") :=
  (page_urls_fixed_given_same_total (fun _ => Except.ok ("Page 1 of 2"))
    ("a") ("b") rfl).2

/-! ### Invariants of the concurrent run -/

lemma sum_updT {β : Type} [AddCommMonoid β] (g : Nat → Phase → β)
    (tasks : Nat → Phase) {n w : Nat} (hw : w < n) (p : Phase) :
    (∑ x ∈ Finset.range n, g x (updT tasks w p x)) + g w (tasks w)
      = (∑ x ∈ Finset.range n, g x (tasks x)) + g w p := by
  have hw' : w ∈ Finset.range n := Finset.mem_range.mpr hw
  rw [← Finset.add_sum_erase _ (fun x => g x (updT tasks w p x)) hw',
      ← Finset.add_sum_erase _ (fun x => g x (tasks x)) hw']
  have h1 : ∑ x ∈ (Finset.range n).erase w, g x (updT tasks w p x)
      = ∑ x ∈ (Finset.range n).erase w, g x (tasks x) :=
    Finset.sum_congr rfl (fun x hx => by
      have hxw : x ≠ w := Finset.ne_of_mem_erase hx
      simp [updT, hxw])
  have h2 : updT tasks w p w = p := by simp [updT]
  rw [h1, h2]
  abel

lemma activeCount_updT {cfg : Config} (s : SysState) {w : Nat}
    (hw : w < cfg.n) (p : Phase) :
    (∑ x ∈ Finset.range cfg.n, aCnt (updT s.tasks w p x)) + aCnt (s.tasks w)
      = activeCount cfg s + aCnt p :=
  sum_updT (fun _ q => aCnt q) s.tasks hw p

lemma saveSum_updT {cfg : Config} (s : SysState) {w : Nat} (hw : w < cfg.n)
    (p : Phase) :
    (∑ x ∈ Finset.range cfg.n, contrib cfg x (updT s.tasks w p x))
        + contrib cfg w (s.tasks w)
      = saveSum cfg s + contrib cfg w p :=
  sum_updT (fun x q => contrib cfg x q) s.tasks hw p

lemma avail_inv_updT {cfg : Config} {s : SysState} {w : Nat} (hw : w < cfg.n)
    (p : Phase) (a' : Nat)
    (h1 : s.avail + activeCount cfg s = cfg.k)
    (harith : a' + aCnt p = s.avail + aCnt (s.tasks w)) :
    a' + (∑ x ∈ Finset.range cfg.n, aCnt (updT s.tasks w p x)) = cfg.k := by
  have key := activeCount_updT s hw p
  omega

lemma fileInv_updT_samefile {cfg : Config} {s : SysState} {w : Nat}
    {p : Phase} (hw : w < cfg.n) (ds : List Row)
    (hf : s.file = Row.header fieldnames :: ds) (hds : DataRowsOk ds)
    (hms : (ds : Multiset Row) = saveSum cfg s)
    (hc : contrib cfg w p = contrib cfg w (s.tasks w)) :
    ∃ ds', s.file = Row.header fieldnames :: ds' ∧ DataRowsOk ds'
      ∧ (ds' : Multiset Row)
        = ∑ x ∈ Finset.range cfg.n, contrib cfg x (updT s.tasks w p x) := by
  refine ⟨ds, hf, hds, ?_⟩
  have key := saveSum_updT s hw p
  rw [hc] at key
  have key2 := add_right_cancel key
  rw [hms]
  exact key2.symm

lemma phaseInv_updT {cfg : Config} {s : SysState} {w : Nat} {p : Phase}
    (h3 : ∀ x, x < cfg.n → PhaseInv (cfg.beh x) (s.tasks x))
    (hp : PhaseInv (cfg.beh w) p) :
    ∀ x, x < cfg.n → PhaseInv (cfg.beh x) (updT s.tasks w p x) := by
  intro x hx
  by_cases hxw : x = w
  · subst hxw
    simpa [updT] using hp
  · simpa [updT, hxw] using h3 x hx

lemma save_data_eq (file : List Row) (books : List Record) (wk : Bool) :
    save_data file books wk
      = file ++ (if wk = true then books.map rowOf else []) := by
  by_cases hb : books.isEmpty = true
  · have hb' : books = [] := List.isEmpty_iff.mp hb
    subst hb'
    by_cases hwk : wk = true <;> simp [save_data, hwk]
  · by_cases hwk : wk = true <;> simp [save_data, writerows, hb, hwk]

lemma resContrib_ok (cfg : Config) (w : Nat) (books : List Record) :
    resContrib cfg w (.ok books)
      = (((if cfg.writeOk w = true then books.map rowOf else []) : List Row)
          : Multiset Row) := by
  by_cases hwk : cfg.writeOk w = true <;> simp [resContrib, hwk]

lemma sysInv_init (cfg : Config) : SysInv cfg (initState cfg) := by
  refine ⟨?_, ⟨[], rfl, ?_, ?_⟩, ?_⟩
  · simp [activeCount, initState, aCnt, isActive]
  · intro r hr
    simp at hr
  · simp [saveSum, initState, contrib]
  · intro w hw
    trivial

lemma sysInv_step {cfg : Config} {s s' : SysState} (hstep : Step cfg s s')
    (hinv : SysInv cfg s) : SysInv cfg s' := by
  obtain ⟨h1, ⟨ds, hf, hds, hms⟩, h3⟩ := hinv
  cases hstep with
  | acquire w hw hph hav =>
    refine ⟨?_, ?_, ?_⟩
    · exact avail_inv_updT hw (Phase.running 0) (s.avail - 1) h1
        (by rw [hph]; show s.avail - 1 + 1 = s.avail + 0; omega)
    · exact fileInv_updT_samefile hw ds hf hds hms (by rw [hph]; rfl)
    · exact phaseInv_updT h3
        ⟨by omega, fun i hi => absurd hi (by omega)⟩
  | fetchSuccess w a books hw hph ha hbeh =>
    have hold := h3 w hw
    rw [hph] at hold
    obtain ⟨ha3, htr⟩ := hold
    refine ⟨?_, ?_, ?_⟩
    · exact avail_inv_updT hw (Phase.closing (.ok books)) s.avail h1
        (by rw [hph]; show s.avail + 1 = s.avail + 1; rfl)
    · refine ⟨ds ++ (if cfg.writeOk w = true then books.map rowOf else []),
        ?_, ?_, ?_⟩
      · show save_data s.file books (cfg.writeOk w) = _
        rw [save_data_eq, hf]
        rfl
      · intro r hr
        rcases List.mem_append.mp hr with hr1 | hr2
        · exact hds r hr1
        · by_cases hwk : cfg.writeOk w = true
          · rw [if_pos hwk] at hr2
            obtain ⟨rec, _, hrec⟩ := List.mem_map.mp hr2
            exact ⟨rec, hrec.symm⟩
          · rw [if_neg hwk] at hr2
            simp at hr2
      · have key := saveSum_updT s hw (Phase.closing (.ok books))
        rw [hph] at key
        have e1 : contrib cfg w (Phase.running a) = 0 := rfl
        have e2 : contrib cfg w (Phase.closing (.ok books))
            = (((if cfg.writeOk w = true then books.map rowOf else [])
                : List Row) : Multiset Row) := resContrib_ok cfg w books
        rw [e1, e2, add_zero] at key
        show ((ds ++ (if cfg.writeOk w = true then books.map rowOf else [])
            : List Row) : Multiset Row)
          = ∑ x ∈ Finset.range cfg.n,
              contrib cfg x (updT s.tasks w (Phase.closing (.ok books)) x)
        rw [key, ← hms]
        exact (Multiset.coe_add ds _).symm
    · exact phaseInv_updT h3
        ⟨a, by omega, htr, Or.inr ⟨ha, Or.inr (Or.inl ⟨books, hbeh, rfl⟩)⟩⟩
  | fetchNotFound w a hw hph ha hbeh =>
    have hold := h3 w hw
    rw [hph] at hold
    obtain ⟨ha3, htr⟩ := hold
    refine ⟨?_, ?_, ?_⟩
    · exact avail_inv_updT hw (Phase.closing (.ok [])) s.avail h1
        (by rw [hph]; rfl)
    · exact fileInv_updT_samefile hw ds hf hds hms
        (by rw [hph]
            by_cases hwk : cfg.writeOk w = true <;>
              simp [contrib, resContrib, hwk])
    · exact phaseInv_updT h3
        ⟨a, by omega, htr, Or.inr ⟨ha, Or.inl ⟨hbeh, rfl⟩⟩⟩
  | fetchTransient w a hw hph ha hbeh =>
    have hold := h3 w hw
    rw [hph] at hold
    obtain ⟨ha3, htr⟩ := hold
    refine ⟨?_, ?_, ?_⟩
    · exact avail_inv_updT hw (Phase.running (a + 1)) s.avail h1
        (by rw [hph]; rfl)
    · exact fileInv_updT_samefile hw ds hf hds hms (by rw [hph]; rfl)
    · refine phaseInv_updT h3 ⟨by omega, fun i hi => ?_⟩
      rcases Nat.lt_succ_iff_lt_or_eq.mp hi with h | h
      · exact htr i h
      · subst h
        exact hbeh
  | fetchFatal w a hw hph ha hbeh =>
    have hold := h3 w hw
    rw [hph] at hold
    obtain ⟨ha3, htr⟩ := hold
    refine ⟨?_, ?_, ?_⟩
    · exact avail_inv_updT hw (Phase.closing (.error ())) s.avail h1
        (by rw [hph]; rfl)
    · exact fileInv_updT_samefile hw ds hf hds hms (by rw [hph]; rfl)
    · exact phaseInv_updT h3
        ⟨a, by omega, htr, Or.inr ⟨ha, Or.inr (Or.inr ⟨hbeh, rfl⟩)⟩⟩
  | exhaust w hw hph =>
    have hold := h3 w hw
    rw [hph] at hold
    obtain ⟨ha3, htr⟩ := hold
    refine ⟨?_, ?_, ?_⟩
    · exact avail_inv_updT hw (Phase.closing (.ok [])) s.avail h1
        (by rw [hph]; rfl)
    · exact fileInv_updT_samefile hw ds hf hds hms
        (by rw [hph]
            by_cases hwk : cfg.writeOk w = true <;>
              simp [contrib, resContrib, hwk])
    · exact phaseInv_updT h3
        ⟨3, le_refl 3, htr, Or.inl ⟨rfl, rfl⟩⟩
  | close w r hw hph =>
    have hold := h3 w hw
    rw [hph] at hold
    refine ⟨?_, ?_, ?_⟩
    · exact avail_inv_updT hw (Phase.done r) (s.avail + 1) h1
        (by rw [hph]; show s.avail + 1 + 0 = s.avail + 1; omega)
    · exact fileInv_updT_samefile hw ds hf hds hms (by rw [hph]; rfl)
    · exact phaseInv_updT h3 hold

lemma reach_sysInv {cfg : Config} {s : SysState} (h : Reach cfg s) :
    SysInv cfg s := by
  induction h with
  | refl => exact sysInv_init cfg
  | tail hrt hstep ih => exact sysInv_step hstep ih

/-- Claim C1: in a run with semaphore capacity `max_concurrent = k` (default
5), at no reachable instant do more than `k` workers hold a permit, so no more
than `k` `scrape_page` workers are concurrently active; moreover any step that
mutates the shared file is taken by a worker in its `running` phase, i.e.
while holding one of the `k` permits (page creation, fetch attempts and the
append all happen between acquire and release). -/
theorem semaphore_caps_active_workers (cfg : Config) (s : SysState)
    (h : Reach cfg s) (t t' : SysState) (hstep : Step cfg t t')
    (hfile : t'.file ≠ t.file) :
    activeCount cfg s ≤ cfg.k
    ∧ defaultMaxConcurrent = 5
    ∧ ∃ w a, w < cfg.n ∧ t.tasks w = Phase.running a := by
  refine ⟨?_, rfl, ?_⟩
  · have h1 := (reach_sysInv h).1
    omega
  · cases hstep with
    | fetchSuccess w a books hw hph ha hbeh => exact ⟨w, a, hw, hph⟩
    | acquire w hw hph hav => exact absurd rfl hfile
    | fetchNotFound w a hw hph ha hbeh => exact absurd rfl hfile
    | fetchTransient w a hw hph ha hbeh => exact absurd rfl hfile
    | fetchFatal w a hw hph ha hbeh => exact absurd rfl hfile
    | exhaust w hw hph => exact absurd rfl hfile
    | close w r hw hph => exact absurd rfl hfile

theorem semaphore_caps_active_workers_witness :
    activeCount cfg0 (initState cfg0) ≤ 5 :=
  (semaphore_caps_active_workers cfg0 (initState cfg0)
    Relation.ReflTransGen.refl
    ⟨4, updT (fun _ => Phase.waiting) 0 (Phase.running 0), initFile⟩ _
    (Step.fetchSuccess _ 0 0 [rec0] (by decide) rfl (by decide) rfl)
    (by decide)).1

/-- Claim C4: in every reachable state of every run, the header row with the
fields `[title, price, availability, url]` occurs exactly once and strictly
precedes every data row; every data row is the schema projection of a record
(fixed column order); and any step that changes the file appends exactly one
page's records as one contiguous block in extraction order. -/
theorem header_once_rows_ordered (cfg : Config) (s : SysState)
    (h : Reach cfg s) (t t' : SysState) (hstep : Step cfg t t') :
    s.file.count (Row.header fieldnames) = 1
    ∧ s.file.head? = some (Row.header fieldnames)
    ∧ (∀ r ∈ s.file.tail, ∃ rec, r = rowOf rec)
    ∧ (t'.file = t.file ∨ ∃ w a books, t.tasks w = Phase.running a
        ∧ cfg.beh w a = .success books
        ∧ t'.file = t.file ++ (if cfg.writeOk w = true
            then books.map rowOf else [])) := by
  obtain ⟨_, ⟨ds, hf, hds, _⟩, _⟩ := reach_sysInv h
  refine ⟨?_, ?_, ?_, ?_⟩
  · rw [hf, List.count_cons_self]
    have hz : ds.count (Row.header fieldnames) = 0 := by
      rw [List.count_eq_zero]
      intro hmem
      obtain ⟨rec, hrec⟩ := hds _ hmem
      exact Row.noConfusion hrec
    rw [hz]
  · rw [hf]
    rfl
  · rw [hf]
    exact hds
  · cases hstep with
    | fetchSuccess w a books hw hph ha hbeh =>
        exact Or.inr ⟨w, a, books, hph, hbeh,
          save_data_eq t.file books (cfg.writeOk w)⟩
    | acquire w hw hph hav => exact Or.inl rfl
    | fetchNotFound w a hw hph ha hbeh => exact Or.inl rfl
    | fetchTransient w a hw hph ha hbeh => exact Or.inl rfl
    | fetchFatal w a hw hph ha hbeh => exact Or.inl rfl
    | exhaust w hw hph => exact Or.inl rfl
    | close w r hw hph => exact Or.inl rfl

theorem header_once_rows_ordered_witness :
    (initState cfg0).file.count (Row.header fieldnames) = 1 :=
  (header_once_rows_ordered cfg0 (initState cfg0) Relation.ReflTransGen.refl
    (initState cfg0) _
    (Step.acquire (initState cfg0) 0 (by decide) rfl (by decide))).1

/-- Claim C3: `save_data` contains no suspension point, so each concurrent
append is one atomic step of the cooperative scheduler.  When every worker's
fetch succeeds (each with a non-empty record list) and writes succeed, every
interleaving that drives all workers to completion leaves the destination
holding exactly the header plus every record of every append call — no row
lost, duplicated, corrupted, or interleaved into another call's block. -/
theorem concurrent_append_exact (cfg : Config) (s : SysState)
    (books : Nat → List Record)
    (hbeh : ∀ w, w < cfg.n → cfg.beh w 0 = .success (books w))
    (hne : ∀ w, w < cfg.n → books w ≠ [])
    (hwk : ∀ w, w < cfg.n → cfg.writeOk w = true)
    (hreach : Reach cfg s)
    (hdone : ∀ w, w < cfg.n → ∃ r, s.tasks w = Phase.done r) :
    ∃ ds, s.file = Row.header fieldnames :: ds
      ∧ (ds : Multiset Row)
        = ∑ w ∈ Finset.range cfg.n, (((books w).map rowOf : List Row)
            : Multiset Row) := by
  obtain ⟨_, ⟨ds, hf, _, hms⟩, h3⟩ := reach_sysInv hreach
  refine ⟨ds, hf, ?_⟩
  rw [hms]
  refine Finset.sum_congr rfl (fun w hwmem => ?_)
  have hwlt := Finset.mem_range.mp hwmem
  obtain ⟨r, hr⟩ := hdone w hwlt
  have hpi := h3 w hwlt
  rw [hr] at hpi
  obtain ⟨j, hj3, htr, hcase⟩ := hpi
  have hrok : r = .ok (books w) := by
    cases j with
    | zero =>
      rcases hcase with ⟨hj, _⟩ | ⟨_, hcase2⟩
      · exact absurd hj (by omega)
      · rcases hcase2 with ⟨hnf, _⟩ | ⟨bs, hsucc, hre⟩ | ⟨hfat, _⟩
        · rw [hbeh w hwlt] at hnf
          exact FetchOutcome.noConfusion hnf
        · rw [hbeh w hwlt] at hsucc
          injection hsucc with hbs
          rw [hre, ← hbs]
        · rw [hbeh w hwlt] at hfat
          exact FetchOutcome.noConfusion hfat
    | succ j' =>
      have h0 := htr 0 (by omega)
      rw [hbeh w hwlt] at h0
      exact FetchOutcome.noConfusion h0
  rw [hr, hrok]
  simp [contrib, resContrib, hwk w hwlt]

theorem concurrent_append_exact_witness :
    ∃ ds, save_data initFile [rec0] true = Row.header fieldnames :: ds
      ∧ (ds : Multiset Row)
        = ∑ w ∈ Finset.range 1, (([rec0].map rowOf : List Row)
            : Multiset Row) :=
  concurrent_append_exact cfg0 _ (fun _ => [rec0])
    (fun _ _ => rfl) (fun _ _ => List.cons_ne_nil _ _) (fun _ _ => rfl)
    (Relation.ReflTransGen.head
      (Step.acquire (initState cfg0) 0 (by decide) rfl (by decide))
      (Relation.ReflTransGen.head
        (Step.fetchSuccess _ 0 0 [rec0] (by decide) rfl (by decide) rfl)
        (Relation.ReflTransGen.single
          (Step.close _ 0 (.ok [rec0]) (by decide) rfl))))
    (fun w hw => ⟨.ok [rec0], by
      have hw1 : w < 1 := hw
      have hw0 : w = 0 := by omega
      subst hw0
      rfl⟩)
